import Mathlib

/-!
Shallow embedding of `src/Restaurantlicences_CSV/filter_veg_fe_hd.py`.

The script reads a CSV into an all-string dataframe (`dtype=str`), scans a
fixed set of searchable columns of every row for English (regex, word-bounded,
case-insensitive) and Chinese (literal substring) vegetarian keywords, and for
every row whose combined distinct-match count reaches `min_matches` emits an
output record assembled by column-priority resolution (`first_existing`) and a
lenient coordinate parser (`to_float_or_none`).

Modelling conventions:
* A cell is `Option String`: `some s` is a Python `str` value, `none` is a
  missing cell (pandas `NaN`, which is the only non-string cell value a
  `dtype=str` dataframe produces) or an absent key.
* A row is an association list from column name to cell; the dataframe keeps
  its column list separately, mirroring `df.columns`.
* Python `float()` is modelled by `pyFloat`, an exact decimal parser into `ℚ`
  (sign, digits, optional fraction, optional exponent, surrounding
  whitespace).  The restriction to finite decimal literals (no `inf`/`nan`
  spellings, no `_` digit separators) is irrelevant for the data in scope, and
  every value in scope is exactly representable, so `ℚ` is a faithful value
  model.
* The regex `\b(k1|...|kn)\b` with `re.IGNORECASE` is modelled by an explicit
  scanner with Python `re` semantics: leftmost match position wins, at a given
  position alternatives are tried in listed order, an alternative must satisfy
  the closing word boundary or the engine backtracks to the next alternative,
  and scanning resumes after the end of each (non-overlapping) match.
  `\w` is modelled for the character ranges that occur in the data: ASCII
  alphanumerics, `_`, and CJK ideographs (all of which are word characters for
  Python's Unicode-aware `\b`).
-/

/-- A dataframe cell: `some s` for a string value, `none` for `NaN`/absent. -/
abbrev Cell := Option String

/-- A row: association list from column name to cell. -/
abbrev Row := List (String × Cell)

/-- `row.get(c)` with pandas' default `None`: the cell when the column is
present, `none` otherwise. -/
def rowGet (row : Row) (c : String) : Cell :=
  match List.lookup c row with
  | some cell => cell
  | none => none

/-- `row.get(col, "")`: the cell when the column is present, the string `""`
otherwise (the default used in the keyword-scanning loop). -/
def rowGetD (row : Row) (c : String) : Cell :=
  match List.lookup c row with
  | some cell => cell
  | none => some ""

/-- Python `str.strip` whitespace test (ASCII whitespace incl. `\v`, `\f`). -/
def isPyWs (c : Char) : Bool :=
  c.isWhitespace || c == '\x0b' || c == '\x0c'

/-- Strip leading and trailing whitespace from a character list. -/
def stripWs (l : List Char) : List Char :=
  ((l.dropWhile isPyWs).reverse.dropWhile isPyWs).reverse

/-- Python `str.strip()`. -/
def pyStrip (s : String) : String := String.mk (stripWs s.data)

/-- Python `str.replace(",", "")`. -/
def replaceCommas (s : String) : String :=
  String.mk (s.data.filter (fun c => c != ','))

/-- Value of a digit list read in base 10. -/
def digitsVal (ds : List Char) : Nat :=
  ds.foldl (fun n c => 10 * n + (c.toNat - 48)) 0

/-- The rational value of a parsed decimal literal: sign, integer part,
fraction digits value, number of fraction digits, exponent. -/
def ratOfParts (neg : Bool) (ip fp fl : Nat) (e : Int) : ℚ :=
  (if neg then (-1 : ℚ) else 1) * ((ip : ℚ) + (fp : ℚ) / 10 ^ fl) * 10 ^ e

/-- Read an optional sign, returning whether it was `-` and the rest. -/
def readSign (l : List Char) : Bool × List Char :=
  match l with
  | '+' :: t => (false, t)
  | '-' :: t => (true, t)
  | t => (false, t)

/-- Parse `digits [ "." digits* ] | "." digits`: integer-part value,
fraction value, fraction length, rest.  Fails when no digit is present. -/
def parseMantissa (l : List Char) : Option (Nat × Nat × Nat × List Char) :=
  let ip := l.takeWhile Char.isDigit
  let l1 := l.dropWhile Char.isDigit
  match l1 with
  | '.' :: t =>
    let fp := t.takeWhile Char.isDigit
    let l2 := t.dropWhile Char.isDigit
    if ip.isEmpty && fp.isEmpty then none
    else some (digitsVal ip, digitsVal fp, fp.length, l2)
  | _ =>
    if ip.isEmpty then none else some (digitsVal ip, 0, 0, l1)

/-- Parse an optional exponent `("e"|"E") [sign] digits`; absence yields 0,
a malformed exponent fails the whole parse. -/
def parseExp (l : List Char) : Option (Int × List Char) :=
  match l with
  | 'e' :: t | 'E' :: t =>
    let (neg, t1) := readSign t
    let ds := t1.takeWhile Char.isDigit
    let t2 := t1.dropWhile Char.isDigit
    if ds.isEmpty then none
    else some ((if neg then -(digitsVal ds : Int) else (digitsVal ds : Int)), t2)
  | _ => some (0, l)

/-- Python `float(s)` on a string: optional surrounding whitespace, optional
sign, decimal mantissa, optional exponent; anything left over fails. -/
def pyFloat (s : String) : Option ℚ :=
  let t := stripWs s.data
  let (neg, t1) := readSign t
  match parseMantissa t1 with
  | none => none
  | some (ip, fp, fl, r) =>
    match parseExp r with
    | none => none
    | some (e, r2) => if r2.isEmpty then some (ratOfParts neg ip fp fl e) else none

/-- `to_float_or_none` from the script: `None` for `NaN`, else `float(val)`,
else `float(str(val).replace(",", "").strip())`, else `None`. -/
def to_float_or_none (val : Cell) : Option ℚ :=
  match val with
  | none => none
  | some s =>
    match pyFloat s with
    | some q => some q
    | none =>
      match pyFloat (pyStrip (replaceCommas s)) with
      | some q => some q
      | none => none

/-- Word character for the modelled `\b`: ASCII alphanumerics, underscore and
CJK ideographs (Python's Unicode `\w` restricted to the ranges in scope). -/
def isWordChar (c : Char) : Bool :=
  c.isAlphanum || c == '_' || (0x4E00 ≤ c.toNat && c.toNat ≤ 0x9FFF)

/-- Wordness of an optional character (off the ends of the string: not a
word character). -/
def optWord (o : Option Char) : Bool :=
  match o with
  | some c => isWordChar c
  | none => false

/-- `\b` between an adjacent pair of (optional) characters. -/
def boundary (a b : Option Char) : Bool :=
  optWord a != optWord b

/-- Case-insensitive literal-prefix match: if `kw` matches the start of `s`
ignoring case, return the matched original-case prefix and the rest. -/
def stripPrefixCI : List Char → List Char → Option (List Char × List Char)
  | [], s => some ([], s)
  | _ :: _, [] => none
  | k :: ks, c :: cs =>
    if c.toLower = k.toLower then
      match stripPrefixCI ks cs with
      | some (m, rest) => some (c :: m, rest)
      | none => none
    else none

/-- Try the alternatives in listed order at the current position; an
alternative must also satisfy the closing `\b`, otherwise the engine
backtracks to the next alternative (Python `re` alternation semantics). -/
def tryAlts : List (List Char) → List Char → Option (List Char × List Char)
  | [], _ => none
  | kw :: alts, s =>
    match stripPrefixCI kw s with
    | some (m, rest) =>
      if boundary m.getLast? rest.head? then some (m, rest) else tryAlts alts s
    | none => tryAlts alts s

/-- The scanning loop of `findall`: at each position, check the opening `\b`,
try the alternatives, and on a match emit it and resume after its end.
`fuel` bounds the recursion; every step consumes at least one character, so
`fuel = s.length` (as used by `findallKw`) never runs out. -/
def findallGo (alts : List (List Char)) : Nat → Option Char → List Char → List (List Char)
  | 0, _, _ => []
  | _, _, [] => []
  | fuel + 1, prev, c :: cs =>
    if boundary prev (some c) then
      match tryAlts alts (c :: cs) with
      | some (m, rest) =>
        match m with
        | [] => findallGo alts fuel (some c) cs
        | _ :: _ => m :: findallGo alts fuel m.getLast? rest
      | none => findallGo alts fuel (some c) cs
    else findallGo alts fuel (some c) cs

/-- `re.findall` for the pattern `\b(alt1|...|altn)\b` with `re.IGNORECASE`:
the list of matched (original-case) substrings, leftmost first,
non-overlapping. -/
def findallKw (alts : List (List Char)) (s : List Char) : List (List Char) :=
  findallGo alts s.length none s

/-- The English keyword vocabulary, in source order. -/
def eng_keywords : List String :=
  ["vegetarian", "vegan", "veggie", "vegan-friendly", "vegetarian-friendly",
   "plant-based", "plant based", "pure veg", "pure-veg", "veg"]

/-- The Chinese keyword vocabulary, in source order. -/
def cn_keywords : List String :=
  ["素食", "純素", "全素", "齋", "素菜", "素食館", "素食店", "素餐", "素齋", "素家"]

/-- `eng_pattern.findall(v)` followed by `.lower()` on each match: the stream
of lowercased English keyword tokens of one cell value, in match order. -/
def enTokens (v : String) : List String :=
  (findallKw (eng_keywords.map String.data) v.data).map
    (fun m => String.mk (m.map Char.toLower))

/-- Python `sub in s` on strings: literal substring containment. -/
def strIn (sub : List Char) : List Char → Bool
  | [] => sub.isEmpty
  | c :: s => sub.isPrefixOf (c :: s) || strIn sub s

/-- The Chinese keywords (in vocabulary order) contained in one cell value. -/
def cnHits (v : String) : List String :=
  cn_keywords.filter (fun kw => strIn kw.data v.data)

/-- Append an element unless already present (the `if token not in xs:
xs.append(token)` idiom). -/
def insertNew (acc : List String) (t : String) : List String :=
  if t ∈ acc then acc else acc ++ [t]

/-- Fold `insertNew` over a token stream. -/
def insertAll (acc : List String) (l : List String) : List String :=
  l.foldl insertNew acc

/-- The per-row scanning loop over the searchable columns, with the two
accumulators `en_matches` / `cn_matches`.  A non-string cell (`None`) hits
`continue`: that column contributes nothing and scanning proceeds with the
next column. -/
def scanRowAux (row : Row) : List String → List String → List String → List String × List String
  | [], en, cn => (en, cn)
  | col :: rest, en, cn =>
    match rowGetD row col with
    | none => scanRowAux row rest en cn
    | some v =>
      scanRowAux row rest
        ((enTokens v).foldl (fun acc t => if t ∈ acc then acc else acc ++ [t]) en)
        (cn_keywords.foldl
          (fun acc kw => if strIn kw.data v.data ∧ kw ∉ acc then acc ++ [kw] else acc)
          cn)

/-- Keyword Matcher: distinct English and Chinese matches of a row, each in
first-seen order over the searchable columns. -/
def scanRow (sc : List String) (row : Row) : List String × List String :=
  scanRowAux row sc [] []

/-- The raw (undeduplicated) English token stream of a row, columns in scan
order.  Used to state the first-seen-order property. -/
def enStream (row : Row) : List String → List String
  | [] => []
  | col :: rest =>
    (match rowGetD row col with
     | none => []
     | some v => enTokens v) ++ enStream row rest

/-- The raw (undeduplicated) Chinese hit stream of a row, columns in scan
order. -/
def cnStream (row : Row) : List String → List String
  | [] => []
  | col :: rest =>
    (match rowGetD row col with
     | none => []
     | some v => cnHits v) ++ cnStream row rest

/-- Keep the first occurrence of every element, in order (the specification's
"distinct, first-seen order" reading). -/
def firstSeen : List String → List String
  | [] => []
  | x :: xs => x :: firstSeen (xs.filter (fun y => y ≠ x))
termination_by l => l.length
decreasing_by
  simp only [List.length_cons]
  exact Nat.lt_succ_of_le (List.length_filter_le _ _)

/-- `col_map` of the script. -/
def colMap_Name_EN : List String :=
  ["NSEARCH03_EN", "NAME_EN", "NSEARCH03", "ESTABLISHMENT_NAME_EN"]

def colMap_Name_TC : List String := ["NSEARCH03_TC", "NAME_TC", "NSEARCH03_TC"]

def colMap_Address_EN : List String := ["ADDRESS_EN", "ADDRESS"]

def colMap_Address_TC : List String := ["ADDRESS_TC"]

def colMap_District_EN : List String := ["SEARCH01_EN"]

def colMap_District_TC : List String := ["SEARCH01_TC"]

def colMap_Latitude : List String := ["LATITUDE"]

def colMap_Longitude : List String := ["LONGITUDE"]

/-- The candidate list the searchable-column loop iterates over. -/
def searchCandidateList : List String :=
  colMap_Name_EN ++ colMap_Name_TC ++
    ["ADDRESS_EN", "ADDRESS_TC", "DATASET_EN", "DATASET_TC", "NAME_EN", "NAME_TC"]

/-- Dataset-level searchable-column determination: keep the candidates present
in the dataset's columns, deduplicated, in candidate order; if none are
present, fall back to all columns (`dtype=str` makes every column an
object/string column, so `select_dtypes(include="object")` is all columns). -/
def computeSearchCols (dfCols : List String) : List String :=
  let sc := searchCandidateList.foldl
    (fun acc c => if c ∈ dfCols ∧ c ∉ acc then acc ++ [c] else acc) []
  if sc.isEmpty then dfCols else sc

/-- `first_existing` from the script: first candidate that is a dataset column
and whose cell is a string with non-empty strip; returns its stripped value,
and `""` when no candidate qualifies. -/
def first_existing (dfCols : List String) (row : Row) : List String → String
  | [] => ""
  | c :: rest =>
    if c ∈ dfCols then
      match rowGet row c with
      | some v => if pyStrip v ≠ "" then pyStrip v else first_existing dfCols row rest
      | none => first_existing dfCols row rest
    else first_existing dfCols row rest

/-- The coordinate loop: take the first candidate present as a dataset column
(`break` ends the loop there regardless of parse outcome) and run
`to_float_or_none` on its cell; `None` when no candidate is present. -/
def resolveCoord (dfCols : List String) (row : Row) (cands : List String) : Option ℚ :=
  match cands.find? (fun c => decide (c ∈ dfCols)) with
  | some c => to_float_or_none (rowGet row c)
  | none => none

/-- An output record (`out` dict of the script). -/
structure OutRecord where
  Name_EN : String
  Name_TC : String
  Address_EN : String
  Address_TC : String
  District_EN : String
  District_TC : String
  Latitude : Option ℚ
  Longitude : Option ℚ
  Keyword_EN : List String
  Keyword_TC : List String
deriving DecidableEq

/-- Assembly of the output record for a qualifying row. -/
def buildRecord (dfCols : List String) (row : Row) (en cn : List String) : OutRecord where
  Name_EN := first_existing dfCols row colMap_Name_EN
  Name_TC := first_existing dfCols row colMap_Name_TC
  Address_EN := first_existing dfCols row colMap_Address_EN
  Address_TC := first_existing dfCols row colMap_Address_TC
  District_EN := first_existing dfCols row colMap_District_EN
  District_TC := first_existing dfCols row colMap_District_TC
  Latitude := resolveCoord dfCols row colMap_Latitude
  Longitude := resolveCoord dfCols row colMap_Longitude
  Keyword_EN := en
  Keyword_TC := cn

/-- A dataframe: column list plus rows (pandas reads with `dtype=str`). -/
structure Frame where
  cols : List String
  rows : List Row

/-- Combined distinct-match count of a row (a Python `int`). -/
def matchTotal (df : Frame) (row : Row) : Int :=
  ((scanRow (computeSearchCols df.cols) row).1.length : Int)
    + ((scanRow (computeSearchCols df.cols) row).2.length : Int)

/-- `filter_and_select`, minus the file I/O it is wrapped in: the `matched`
result list.  `min_matches` is a CLI `int`, accepted unvalidated. -/
def filter_and_select (df : Frame) (min_matches : Int) : List OutRecord :=
  let sc := computeSearchCols df.cols
  df.rows.foldl
    (fun matched row =>
      let p := scanRow sc row
      if ((p.1.length : Int) + (p.2.length : Int)) ≥ min_matches then
        matched ++ [buildRecord df.cols row p.1 p.2]
      else matched)
    []

/-- Specification-side Column Resolver (`resolve` of spec §4.1), written from
the spec's words: first candidate present as a dataset column whose row value
is a non-empty non-whitespace string, trimmed; empty string otherwise. -/
def resolveSpec (dfCols : List String) (row : Row) (cands : List String) : String :=
  (cands.findSome? (fun c =>
    if c ∈ dfCols then
      match rowGet row c with
      | some v => if pyStrip v = "" then none else some (pyStrip v)
      | none => none
    else none)).getD ""

/-! ## Concrete fixtures

Small frames used to instantiate the claims on concrete inputs.  Each fixture
is used by the theorems of a single claim. -/

/-- A row whose `NAME_EN` cell is `NaN` (non-string) while `ADDRESS_EN`
contains an English keyword. -/
def rowC2 : Row := [("NAME_EN", none), ("ADDRESS_EN", some "vegetarian")]

/-- Frame around `rowC2`; both columns are searchable. -/
def dfC2 : Frame := ⟨["NAME_EN", "ADDRESS_EN"], [rowC2]⟩

/-- Scenario A frame: one row named "Green Vegetarian Restaurant". -/
def dfC6 : Frame := ⟨["NAME_EN"], [[("NAME_EN", some "Green Vegetarian Restaurant")]]⟩

/-- A one-row frame with a single English keyword match. -/
def dfC7 : Frame := ⟨["NAME_EN"], [[("NAME_EN", some "vegan deli")]]⟩

/-- A one-row frame used to instantiate determinism. -/
def dfC8 : Frame := ⟨["NAME_EN"], [[("NAME_EN", some "pure veg house")]]⟩

/-- A row whose searchable text is exactly the keyword `素食館`. -/
def rowC9 : Row := [("NSEARCH03_TC", some "素食館")]

/-- A one-row frame with no keyword match at all. -/
def dfC10 : Frame := ⟨["NAME_EN"], [[("NAME_EN", some "noodle bar")]]⟩

/-! ## Helper lemmas -/

theorem isPrefixOf_self_append (l b : List Char) : l.isPrefixOf (l ++ b) = true := by
  induction l with
  | nil => simp [List.isPrefixOf]
  | cons k ks ih => simp [List.isPrefixOf, ih]

theorem strIn_nil_left (l : List Char) : strIn [] l = true := by
  cases l <;> simp [strIn]

theorem strIn_append (sub a b : List Char) : strIn sub (a ++ sub ++ b) = true := by
  induction a with
  | nil =>
    cases sub with
    | nil => exact strIn_nil_left b
    | cons k ks =>
      have hstep : strIn (k :: ks) (([] : List Char) ++ (k :: ks) ++ b)
          = (((k :: ks).isPrefixOf ((k :: ks) ++ b)) || strIn (k :: ks) (ks ++ b)) := rfl
      rw [hstep, isPrefixOf_self_append, Bool.true_or]
  | cons x xs ih =>
    have hstep : strIn sub ((x :: xs) ++ sub ++ b)
        = ((sub.isPrefixOf ((x :: xs) ++ sub ++ b)) || strIn sub (xs ++ sub ++ b)) := rfl
    rw [hstep, ih, Bool.or_true]

theorem firstSeen_mem (a : String) (l : List String) : a ∈ firstSeen l ↔ a ∈ l := by
  induction l using firstSeen.induct with
  | case1 => simp [firstSeen]
  | case2 x xs ih =>
    simp only [firstSeen, List.mem_cons, ih, List.mem_filter, decide_eq_true_eq]
    by_cases hax : a = x <;> simp [hax]

theorem firstSeen_nodup (l : List String) : (firstSeen l).Nodup := by
  induction l using firstSeen.induct with
  | case1 => simp [firstSeen]
  | case2 x xs ih =>
    simp only [firstSeen, List.nodup_cons]
    refine ⟨fun hmem => ?_, ih⟩
    rw [firstSeen_mem] at hmem
    simp [List.mem_filter] at hmem

theorem insertAll_eq_firstSeen_filter (l : List String) :
    ∀ acc : List String,
      insertAll acc l = acc ++ firstSeen (l.filter (fun y => y ∉ acc)) := by
  induction l with
  | nil => intro acc; simp [insertAll, firstSeen]
  | cons x xs ih =>
    intro acc
    show insertAll (insertNew acc x) xs = _
    by_cases hx : x ∈ acc
    · rw [ih (insertNew acc x)]
      simp [insertNew, hx, List.filter_cons]
    · rw [ih (insertNew acc x)]
      have hfilter :
          xs.filter (fun y => y ∉ insertNew acc x)
            = (xs.filter (fun y => y ∉ acc)).filter (fun y => y ≠ x) := by
        rw [List.filter_filter]
        refine List.filter_congr fun y _ => ?_
        by_cases hya : y ∈ acc <;> by_cases hyx : y = x <;>
          simp [insertNew, hx, hya, hyx]
      rw [hfilter]
      have hcons :
          firstSeen ((x :: xs).filter (fun y => y ∉ acc))
            = x :: firstSeen ((xs.filter (fun y => y ∉ acc)).filter (fun y => y ≠ x)) := by
        simp [List.filter_cons, hx, firstSeen]
      rw [hcons]
      simp [insertNew, hx]

theorem insertAll_nil_eq_firstSeen (l : List String) : insertAll [] l = firstSeen l := by
  rw [insertAll_eq_firstSeen_filter l []]
  simp

theorem insertAll_append (acc l1 l2 : List String) :
    insertAll acc (l1 ++ l2) = insertAll (insertAll acc l1) l2 :=
  List.foldl_append ..

theorem foldl_en_eq_insertAll (en ts : List String) :
    ts.foldl (fun acc t => if t ∈ acc then acc else acc ++ [t]) en = insertAll en ts := rfl

theorem foldl_cn_eq_insertAll (v : String) (kws : List String) :
    ∀ cn : List String,
      kws.foldl
          (fun acc kw => if strIn kw.data v.data ∧ kw ∉ acc then acc ++ [kw] else acc) cn
        = insertAll cn (kws.filter (fun kw => strIn kw.data v.data)) := by
  induction kws with
  | nil => intro cn; rfl
  | cons kw kws ih =>
    intro cn
    by_cases hs : strIn kw.data v.data = true
    · have hstep :
          (if strIn kw.data v.data ∧ kw ∉ cn then cn ++ [kw] else cn) = insertNew cn kw := by
        by_cases hm : kw ∈ cn <;> simp [insertNew, hs, hm]
      have hfil : List.filter (fun kw => strIn kw.data v.data) (kw :: kws)
          = kw :: List.filter (fun kw => strIn kw.data v.data) kws := by
        simp [List.filter_cons, hs]
      rw [List.foldl_cons, hstep, ih, hfil]
      rfl
    · have hs' : strIn kw.data v.data = false := by
        cases h : strIn kw.data v.data
        · rfl
        · exact absurd h hs
      have hstep :
          (if strIn kw.data v.data ∧ kw ∉ cn then cn ++ [kw] else cn) = cn := by
        simp [hs']
      have hfil : List.filter (fun kw => strIn kw.data v.data) (kw :: kws)
          = List.filter (fun kw => strIn kw.data v.data) kws := by
        simp [List.filter_cons, hs']
      rw [List.foldl_cons, hstep, ih, hfil]

theorem scanRowAux_eq (row : Row) (sc : List String) :
    ∀ en cn : List String,
      scanRowAux row sc en cn
        = (insertAll en (enStream row sc), insertAll cn (cnStream row sc)) := by
  induction sc with
  | nil => intro en cn; rfl
  | cons col rest ih =>
    intro en cn
    cases hv : rowGetD row col with
    | none =>
      have h1 : scanRowAux row (col :: rest) en cn = scanRowAux row rest en cn := by
        simp only [scanRowAux, hv]
      have h2 : enStream row (col :: rest) = enStream row rest := by
        simp only [enStream, hv, List.nil_append]
      have h3 : cnStream row (col :: rest) = cnStream row rest := by
        simp only [cnStream, hv, List.nil_append]
      rw [h1, h2, h3]
      exact ih en cn
    | some v =>
      have h1 : scanRowAux row (col :: rest) en cn
          = scanRowAux row rest (insertAll en (enTokens v)) (insertAll cn (cnHits v)) := by
        simp only [scanRowAux, hv]
        rw [foldl_en_eq_insertAll, foldl_cn_eq_insertAll]
        rfl
      have h2 : enStream row (col :: rest) = enTokens v ++ enStream row rest := by
        simp only [enStream, hv]
      have h3 : cnStream row (col :: rest) = cnHits v ++ cnStream row rest := by
        simp only [cnStream, hv]
      rw [h1, ih, h2, h3, insertAll_append, insertAll_append]

theorem scanRow_eq_firstSeen (sc : List String) (row : Row) :
    scanRow sc row = (firstSeen (enStream row sc), firstSeen (cnStream row sc)) := by
  show scanRowAux row sc [] [] = _
  rw [scanRowAux_eq row sc [] [], insertAll_nil_eq_firstSeen, insertAll_nil_eq_firstSeen]

theorem scanRowAux_skip (row : Row) (col : String) (h : rowGetD row col = none) :
    ∀ (pre post : List String) (en cn : List String),
      scanRowAux row (pre ++ col :: post) en cn = scanRowAux row (pre ++ post) en cn := by
  intro pre
  induction pre with
  | nil =>
    intro post en cn
    simp only [List.nil_append, scanRowAux, h]
  | cons p pre ih =>
    intro post en cn
    cases hp : rowGetD row p with
    | none =>
      show scanRowAux row (p :: (pre ++ col :: post)) en cn
        = scanRowAux row (p :: (pre ++ post)) en cn
      simp only [scanRowAux, hp]
      exact ih post en cn
    | some v =>
      show scanRowAux row (p :: (pre ++ col :: post)) en cn
        = scanRowAux row (p :: (pre ++ post)) en cn
      simp only [scanRowAux, hp]
      exact ih post _ _

theorem cnStream_mem (row : Row) (col : String) (v : String) (kw : String)
    (hval : rowGetD row col = some v) (hkw : kw ∈ cnHits v) :
    ∀ sc : List String, col ∈ sc → kw ∈ cnStream row sc := by
  intro sc
  induction sc with
  | nil => intro hc; cases hc
  | cons c rest ih =>
    intro hc
    rcases List.mem_cons.mp hc with hceq | hcmem
    · subst hceq
      simp only [cnStream, hval, List.mem_append]
      exact Or.inl hkw
    · cases hv : rowGetD row c with
      | none => simpa only [cnStream, hv, List.nil_append] using ih hcmem
      | some w =>
        simp only [cnStream, hv, List.mem_append]
        exact Or.inr (ih hcmem)

theorem two_mem_le_length {x y : String} {l : List String}
    (hx : x ∈ l) (hy : y ∈ l) (hxy : x ≠ y) : 2 ≤ l.length := by
  induction l with
  | nil => cases hx
  | cons a t ih =>
    rcases List.mem_cons.mp hx with hxa | hxt
    · have hyt : y ∈ t := by
        rcases List.mem_cons.mp hy with hya | hyt
        · exact absurd (hxa.trans hya.symm) hxy
        · exact hyt
      have := List.length_pos_of_mem hyt
      simp only [List.length_cons]
      omega
    · have := List.length_pos_of_mem hxt
      simp only [List.length_cons]
      omega

theorem foldl_if_append (P : Row → Prop) [DecidablePred P] (b : Row → OutRecord)
    (rows : List Row) :
    ∀ acc : List OutRecord,
      rows.foldl (fun matched row => if P row then matched ++ [b row] else matched) acc
        = acc ++ (rows.filter (fun row => decide (P row))).map b := by
  induction rows with
  | nil => intro acc; simp
  | cons r rows ih =>
    intro acc
    by_cases hP : P r
    · have hd : decide (P r) = true := decide_eq_true hP
      have hfil : List.filter (fun row => decide (P row)) (r :: rows)
          = r :: List.filter (fun row => decide (P row)) rows := by
        simp [List.filter_cons, hd]
      rw [List.foldl_cons, if_pos hP, ih, hfil, List.map_cons]
      simp [List.append_assoc]
    · have hd : decide (P r) = false := decide_eq_false hP
      have hfil : List.filter (fun row => decide (P row)) (r :: rows)
          = List.filter (fun row => decide (P row)) rows := by
        simp [List.filter_cons, hd]
      rw [List.foldl_cons, if_neg hP, ih, hfil]

theorem filter_and_select_eq (df : Frame) (m : Int) :
    filter_and_select df m
      = (df.rows.filter (fun row => decide (matchTotal df row ≥ m))).map
          (fun row =>
            buildRecord df.cols row (scanRow (computeSearchCols df.cols) row).1
              (scanRow (computeSearchCols df.cols) row).2) := by
  have h := foldl_if_append
    (fun row => ((scanRow (computeSearchCols df.cols) row).1.length : Int)
      + ((scanRow (computeSearchCols df.cols) row).2.length : Int) ≥ m)
    (fun row =>
      buildRecord df.cols row (scanRow (computeSearchCols df.cols) row).1
        (scanRow (computeSearchCols df.cols) row).2)
    df.rows []
  simpa only [List.nil_append] using h

theorem matchTotal_nonneg (df : Frame) (row : Row) : 0 ≤ matchTotal df row := by
  have h1 : (0 : Int) ≤ ((scanRow (computeSearchCols df.cols) row).1.length : Int) :=
    Int.natCast_nonneg _
  have h2 : (0 : Int) ≤ ((scanRow (computeSearchCols df.cols) row).2.length : Int) :=
    Int.natCast_nonneg _
  unfold matchTotal
  omega

/-! ## Claim theorems -/

/-- C1: for every input row, an output record is appended to the result list
iff the number of distinct English matches plus the number of distinct Chinese
matches is at least `min_matches`: the result list is exactly the
threshold-filtered row list mapped through record assembly, in row order. -/
theorem C1_record_iff_threshold (df : Frame) (m : Int) :
    filter_and_select df m
      = (df.rows.filter (fun row => decide (matchTotal df row ≥ m))).map
          (fun row =>
            buildRecord df.cols row (scanRow (computeSearchCols df.cols) row).1
              (scanRow (computeSearchCols df.cols) row).2) :=
  filter_and_select_eq df m

/-- C2 (counterexample): the claim says a row with a non-string value in some
searchable column is excluded from scanning and from the output; on `dfC2`
the `NAME_EN` cell is non-string yet the row still reaches the output with the
keyword found in its other column — `continue` skips only the column. -/
theorem C2_counterexample :
    rowGetD rowC2 "NAME_EN" = none
    ∧ "NAME_EN" ∈ computeSearchCols dfC2.cols
    ∧ dfC2.rows = [rowC2]
    ∧ (filter_and_select dfC2 1).map OutRecord.Keyword_EN = [["vegetarian"]] :=
  ⟨rfl, by decide, rfl, by decide⟩

/-- C2 (amended): a non-string (absent/`NaN`) value causes only that column to
be skipped: scanning a column list with the offending column removed yields the
same matches, so the row remains subject to the usual threshold test. -/
theorem C2_nonstring_skips_column_only (row : Row) (pre post : List String)
    (col : String) (h : rowGetD row col = none) :
    scanRow (pre ++ col :: post) row = scanRow (pre ++ post) row :=
  scanRowAux_skip row col h pre post [] []

/-- C2 witness: the amended statement at a concrete row. -/
theorem C2_nonstring_skips_column_only_witness :
    rowGetD rowC2 "NAME_EN" = none
    ∧ scanRow ([] ++ "NAME_EN" :: ["ADDRESS_EN"]) rowC2
        = scanRow ([] ++ ["ADDRESS_EN"]) rowC2 :=
  ⟨rfl, C2_nonstring_skips_column_only rowC2 [] ["ADDRESS_EN"] "NAME_EN" rfl⟩

/-- C3: the Column Resolver `first_existing` coincides, for every column set,
row and candidate list, with the specification's resolver: the trimmed value
of the first candidate that is a dataset column whose row value is a non-empty
non-whitespace string, and the empty string (total, no failure) otherwise. -/
theorem C3_first_existing_resolves_spec (dfCols : List String) (row : Row)
    (cands : List String) :
    first_existing dfCols row cands = resolveSpec dfCols row cands := by
  induction cands with
  | nil => rfl
  | cons c rest ih =>
    by_cases hc : c ∈ dfCols
    · cases hv : rowGet row c with
      | none =>
        have h1 : first_existing dfCols row (c :: rest) = first_existing dfCols row rest := by
          simp [first_existing, hc, hv]
        have h2 : resolveSpec dfCols row (c :: rest) = resolveSpec dfCols row rest := by
          simp [resolveSpec, List.findSome?_cons, hc, hv]
        rw [h1, h2, ih]
      | some v =>
        by_cases hs : pyStrip v = ""
        · have h1 : first_existing dfCols row (c :: rest) = first_existing dfCols row rest := by
            simp [first_existing, hc, hv, hs]
          have h2 : resolveSpec dfCols row (c :: rest) = resolveSpec dfCols row rest := by
            simp [resolveSpec, List.findSome?_cons, hc, hv, hs]
          rw [h1, h2, ih]
        · have h1 : first_existing dfCols row (c :: rest) = pyStrip v := by
            simp [first_existing, hc, hv, hs]
          have h2 : resolveSpec dfCols row (c :: rest) = pyStrip v := by
            simp [resolveSpec, List.findSome?_cons, hc, hv, hs]
          rw [h1, h2]
    · have h1 : first_existing dfCols row (c :: rest) = first_existing dfCols row rest := by
        simp [first_existing, hc]
      have h2 : resolveSpec dfCols row (c :: rest) = resolveSpec dfCols row rest := by
        simp [resolveSpec, List.findSome?_cons, hc]
      rw [h1, h2, ih]

/-- C4: the coordinate parser is total into `Option ℚ` (float-or-null, never a
failure); direct conversion of `"22,302"` fails, the comma-stripping
whitespace-stripping fallback yields `22302`, `"N/A"` yields `null`, and a
missing value yields `null`; `" 1,234.5 "` exercises both strippings. -/
theorem C4_to_float_or_none_scenarios :
    to_float_or_none (some "22,302") = some ((22302 : ℚ))
    ∧ to_float_or_none (some "N/A") = none
    ∧ to_float_or_none none = none
    ∧ pyFloat "22,302" = none
    ∧ to_float_or_none (some " 1,234.5 ") = some ((2469 : ℚ) / 2)
    ∧ ∀ val : Cell, to_float_or_none val = none ∨ ∃ q : ℚ, to_float_or_none val = some q := by
  refine ⟨?_, rfl, rfl, rfl, ?_, ?_⟩
  · have h : to_float_or_none (some "22,302") = some (ratOfParts false 22302 0 0 0) := rfl
    rw [h]
    norm_num [ratOfParts]
  · have h : to_float_or_none (some " 1,234.5 ") = some (ratOfParts false 1234 5 1 0) := rfl
    rw [h]
    norm_num [ratOfParts]
  · intro val
    cases h : to_float_or_none val with
    | none => exact Or.inl rfl
    | some q => exact Or.inr ⟨q, rfl⟩

/-- C5: for every searchable-column list and row, the English and Chinese
keyword sequences contain no duplicates, and each equals the
first-occurrence-order deduplication of the raw token stream obtained by
scanning the columns in their fixed order. -/
theorem C5_keywords_nodup_first_seen (sc : List String) (row : Row) :
    (scanRow sc row).1.Nodup ∧ (scanRow sc row).2.Nodup
    ∧ (scanRow sc row).1 = firstSeen (enStream row sc)
    ∧ (scanRow sc row).2 = firstSeen (cnStream row sc) := by
  rw [scanRow_eq_firstSeen sc row]
  exact ⟨firstSeen_nodup _, firstSeen_nodup _, rfl, rfl⟩

/-- C6: on the name "Green Vegetarian Restaurant" the English matcher reports
exactly `["vegetarian"]` — the overlapping alternative "veg" is not also
reported — and the row is included in the output at `min_matches = 1`. -/
theorem C6_scenarioA_vegetarian_only :
    enTokens "Green Vegetarian Restaurant" = ["vegetarian"]
    ∧ scanRow (computeSearchCols dfC6.cols) [("NAME_EN", some "Green Vegetarian Restaurant")]
        = (["vegetarian"], [])
    ∧ (filter_and_select dfC6 1).map OutRecord.Keyword_EN = [["vegetarian"]] :=
  ⟨by decide, by decide, by decide⟩

/-- C7: for a fixed frame the output shrinks monotonically in `min_matches`:
the output at a higher threshold is a sublist of (hence contained in) the
output at any lower threshold. -/
theorem C7_output_monotone_shrinkage (df : Frame) (m m' : Int) (h : m ≤ m') :
    (filter_and_select df m').Sublist (filter_and_select df m)
    ∧ ∀ r : OutRecord, r ∈ filter_and_select df m' → r ∈ filter_and_select df m := by
  have hsub : (filter_and_select df m').Sublist (filter_and_select df m) := by
    rw [filter_and_select_eq df m, filter_and_select_eq df m']
    refine List.Sublist.map _ ?_
    refine List.monotone_filter_right _ ?_
    intro row hrow
    simp only [decide_eq_true_eq] at hrow ⊢
    omega
  exact ⟨hsub, fun r hr => hsub.subset hr⟩

/-- C7 witness: thresholds 1 and 5 on a concrete frame. -/
theorem C7_output_monotone_shrinkage_witness :
    (1 : Int) ≤ 5
    ∧ ((filter_and_select dfC7 5).Sublist (filter_and_select dfC7 1)
      ∧ ∀ r : OutRecord, r ∈ filter_and_select dfC7 5 → r ∈ filter_and_select dfC7 1) :=
  ⟨by decide, C7_output_monotone_shrinkage dfC7 1 5 (by decide)⟩

/-- C8: the pipeline is deterministic — equal input frames and equal
`min_matches` give equal output lists, in order and content (the embedding is
a pure function of exactly these two inputs, mirroring the script's lack of
any other input source). -/
theorem C8_deterministic (df df' : Frame) (m m' : Int) (hdf : df = df')
    (hm : m = m') :
    filter_and_select df m = filter_and_select df' m' := by
  rw [hdf, hm]

/-- C8 witness: determinism at a concrete frame and threshold. -/
theorem C8_deterministic_witness :
    dfC8 = dfC8 ∧ (1 : Int) = 1
    ∧ filter_and_select dfC8 1 = filter_and_select dfC8 1 :=
  ⟨rfl, rfl, C8_deterministic dfC8 dfC8 1 1 rfl rfl⟩

/-- C9: Chinese matching is bare substring containment with no cross-keyword
exclusion, so text containing `素食館` records both `素食` and `素食館`, and the
two distinct entries contribute 2 to the threshold count. -/
theorem C9_chinese_substring_double_count (sc : List String) (row : Row)
    (col : String) (v : String) (a b : List Char) (hcol : col ∈ sc)
    (hval : rowGetD row col = some v)
    (hsub : v.data = a ++ "素食館".data ++ b) :
    "素食" ∈ (scanRow sc row).2 ∧ "素食館" ∈ (scanRow sc row).2
    ∧ 2 ≤ (scanRow sc row).2.length := by
  have hdecomp : "素食館".data = "素食".data ++ ['館'] := by decide
  have h1 : strIn "素食".data v.data = true := by
    rw [hsub, hdecomp]
    have hassoc : a ++ ("素食".data ++ ['館']) ++ b = a ++ "素食".data ++ ('館' :: b) := by
      simp [List.append_assoc]
    rw [hassoc]
    exact strIn_append _ _ _
  have h2 : strIn "素食館".data v.data = true := by
    rw [hsub]
    exact strIn_append _ _ _
  have hk1 : "素食" ∈ cnHits v := List.mem_filter.mpr ⟨by decide, h1⟩
  have hk2 : "素食館" ∈ cnHits v := List.mem_filter.mpr ⟨by decide, h2⟩
  have hstream1 : "素食" ∈ cnStream row sc := cnStream_mem row col v "素食" hval hk1 sc hcol
  have hstream2 : "素食館" ∈ cnStream row sc := cnStream_mem row col v "素食館" hval hk2 sc hcol
  have hm1 : "素食" ∈ (scanRow sc row).2 := by
    rw [scanRow_eq_firstSeen sc row]
    exact (firstSeen_mem _ _).mpr hstream1
  have hm2 : "素食館" ∈ (scanRow sc row).2 := by
    rw [scanRow_eq_firstSeen sc row]
    exact (firstSeen_mem _ _).mpr hstream2
  exact ⟨hm1, hm2, two_mem_le_length hm1 hm2 (by decide)⟩

/-- C9 witness: a row whose searchable cell is exactly `素食館`. -/
theorem C9_chinese_substring_double_count_witness :
    ("NSEARCH03_TC" ∈ ["NSEARCH03_TC"]
      ∧ rowGetD rowC9 "NSEARCH03_TC" = some "素食館"
      ∧ "素食館".data = [] ++ "素食館".data ++ [])
    ∧ ("素食" ∈ (scanRow ["NSEARCH03_TC"] rowC9).2
      ∧ "素食館" ∈ (scanRow ["NSEARCH03_TC"] rowC9).2
      ∧ 2 ≤ (scanRow ["NSEARCH03_TC"] rowC9).2.length) :=
  ⟨⟨by decide, by decide, by simp⟩,
    C9_chinese_substring_double_count ["NSEARCH03_TC"] rowC9 "NSEARCH03_TC" "素食館" [] []
      (by decide) (by decide) (by simp)⟩

/-- C10: `min_matches` is accepted unvalidated, and any value `≤ 0` keeps every
row: the output is one record per input row, including zero-match rows (whose
keyword lists are then both empty, as the witness shows concretely). -/
theorem C10_nonpositive_min_matches_keeps_all (df : Frame) (m : Int) (h : m ≤ 0) :
    filter_and_select df m
      = df.rows.map (fun row =>
          buildRecord df.cols row (scanRow (computeSearchCols df.cols) row).1
            (scanRow (computeSearchCols df.cols) row).2) := by
  rw [filter_and_select_eq df m]
  have hall : df.rows.filter (fun row => decide (matchTotal df row ≥ m)) = df.rows := by
    apply List.filter_eq_self.mpr
    intro row _
    have hpos := matchTotal_nonneg df row
    simp only [decide_eq_true_eq]
    omega
  rw [hall]

/-- C10 witness: threshold 0 on a matchless row still yields one record, with
both keyword lists empty. -/
theorem C10_nonpositive_min_matches_keeps_all_witness :
    (0 : Int) ≤ 0
    ∧ filter_and_select dfC10 0
        = dfC10.rows.map (fun row =>
            buildRecord dfC10.cols row (scanRow (computeSearchCols dfC10.cols) row).1
              (scanRow (computeSearchCols dfC10.cols) row).2)
    ∧ (filter_and_select dfC10 0).map OutRecord.Keyword_EN = [[]]
    ∧ (filter_and_select dfC10 0).map OutRecord.Keyword_TC = [[]] :=
  ⟨by decide, C10_nonpositive_min_matches_keeps_all dfC10 0 (by decide),
    by decide, by decide⟩
